import Mathlib

/-!
Verification of the picoqinq header-compression protocol core
(`picoqinq/qinqproto.c`): the wire codec for the three message kinds
(Datagram Header, Reserve-Header, Reserve-CID) and the header-compression
registry (insert-with-dedup, lookup-by-code, lookup-by-address-and-cid,
with most-recently-used promotion).

Modelling conventions:
* wire bytes are `List Nat` (each element one octet);
* a C cursor `(bytes, bytes_max)` that returns an advanced pointer or
  `NULL` becomes a function on the remaining byte list returning
  `Option` (`none` = `NULL`);
* decoder out-parameters are modelled explicitly: each decode function
  takes the initial contents of its out-parameters and returns their
  final contents next to the optional advanced cursor, so writes that
  happen before a failure are observable, exactly as for a C caller;
* the registry (a singly linked list threaded through
  `picoqinq_header_compression_t`) is a `List HC`, head first;
* heap allocation is not modelled (a `malloc` failure is outside the
  embedding), and a `free`d node is simply absent from the list.
-/

namespace Qinq

/-- Modelled from the spec: the maximum CID length bound; the spec says to
treat it as at most 20 bytes (the constant itself lives in a repository
header that is not part of the given source). -/
def PICOQUIC_CONNECTION_ID_MAX_SIZE : Nat := 20

/-- Modelled from the spec: the opcode constants are distinct stable
integers defined in a repository header not part of the given source. -/
def QINQ_PROTO_RESERVE_HEADER : Nat := 1

/-- Modelled from the spec: see `QINQ_PROTO_RESERVE_HEADER`. -/
def QINQ_PROTO_RESERVE_CID : Nat := 2

/-- A socket address value: a tagged union over IPv4 and IPv6, carrying the
raw address bytes (4 or 16 of them) and the 16-bit port.  This models the
contents of a `sockaddr_in` / `sockaddr_in6` stored in a
`sockaddr_storage`. -/
inductive Addr : Type
  | v4 (a : List Nat) (port : Nat)
  | v6 (a : List Nat) (port : Nat)
deriving DecidableEq

/-- Well-formedness of an address value: the raw byte string has the
length its family dictates (4 for IPv4, 16 for IPv6). -/
def Addr.wf : Addr → Prop
  | .v4 a _ => a.length = 4
  | .v6 a _ => a.length = 16

instance : DecidablePred Addr.wf := fun a => by
  cases a <;> simp [Addr.wf] <;> infer_instance

/-- One header-compression entry (`picoqinq_header_compression_t`): a code
(`hcid`), the address it stands for, and the CID it stands for.  The
`next_hc` link is represented by the entry's position in the registry
list. -/
structure HC where
  hcid : Nat
  addr : Addr
  cid : List Nat
deriving DecidableEq

/-- Modelled from the spec: `picoquic_compare_addr` (declared in a
repository header, not part of the given source) returns 0 exactly when
the two addresses are equal as values (family, raw bytes and port). -/
def picoquic_compare_addr (a b : Addr) : Nat :=
  if a = b then 0 else 1

/-- Modelled from the spec: `picoquic_frames_fixed_skip` advances the
cursor over `size` bytes, failing (returning `NULL`) when fewer than
`size` bytes remain before the limit. -/
def picoquic_frames_fixed_skip (bytes : List Nat) (size : Nat) : Option (List Nat) :=
  if size ≤ bytes.length then some (bytes.drop size) else none

/-- Modelled from the spec: `picoquic_frames_varint_decode` reads a
variable-length integer whose leading two bits give the total length
(1, 2, 4 or 8 bytes, big-endian on the remaining bits), failing on
truncation. -/
def picoquic_frames_varint_decode : List Nat → Option (Nat × List Nat)
  | [] => none
  | b :: rest =>
    match b / 64 with
    | 0 => some (b % 64, rest)
    | 1 =>
      match rest with
      | b1 :: r => some ((b % 64) * 256 + b1, r)
      | [] => none
    | 2 =>
      match rest with
      | b1 :: b2 :: b3 :: r =>
        some ((((b % 64) * 256 + b1) * 256 + b2) * 256 + b3, r)
      | _ => none
    | _ =>
      match rest with
      | b1 :: b2 :: b3 :: b4 :: b5 :: b6 :: b7 :: r =>
        some ((((((((b % 64) * 256 + b1) * 256 + b2) * 256 + b3) * 256 + b4)
          * 256 + b5) * 256 + b6) * 256 + b7, r)
      | _ => none

/-- Modelled from the spec: `picoquic_frames_varlen_decode` is the varint
decoder reading into a size value. -/
def picoquic_frames_varlen_decode (bytes : List Nat) : Option (Nat × List Nat) :=
  picoquic_frames_varint_decode bytes

/-- Modelled from the spec: `picoquic_frames_uint16_decode` reads a 16-bit
field as two bytes in network order, failing on truncation. -/
def picoquic_frames_uint16_decode : List Nat → Option (Nat × List Nat)
  | b0 :: b1 :: r => some (b0 * 256 + b1, r)
  | _ => none

/-- Modelled from the spec: `picoquic_frames_cid_decode` reads a CID as a
varlen length followed by that many bytes, rejecting lengths beyond the
maximum CID bound and failing on truncation.  On failure it writes
nothing (the primitives signal failure only through the cursor). -/
def picoquic_frames_cid_decode (bytes : List Nat) : Option (List Nat × List Nat) :=
  match picoquic_frames_varlen_decode bytes with
  | none => none
  | some (len, r) =>
    if len ≤ PICOQUIC_CONNECTION_ID_MAX_SIZE then
      match picoquic_frames_fixed_skip r len with
      | none => none
      | some r2 => some (r.take len, r2)
    else none

/-- Modelled from the spec: `picoquic_frames_varint_encode` writes the
variable-length integer encoding of `v` (shortest form), failing when the
value does not fit in 62 bits. -/
def picoquic_frames_varint_encode (v : Nat) : Option (List Nat) :=
  if v < 64 then some [v]
  else if v < 16384 then some [64 + v / 256, v % 256]
  else if v < 1073741824 then
    some [128 + v / 16777216, v / 65536 % 256, v / 256 % 256, v % 256]
  else if v < 4611686018427387904 then
    some [192 + v / 72057594037927936, v / 281474976710656 % 256,
      v / 1099511627776 % 256, v / 4294967296 % 256, v / 16777216 % 256,
      v / 65536 % 256, v / 256 % 256, v % 256]
  else none

/-- Modelled from the spec: `picoquic_frames_l_v_encode` writes a varlen
length followed by that many bytes copied from the given buffer. -/
def picoquic_frames_l_v_encode (len : Nat) (bytes : List Nat) : Option (List Nat) :=
  (picoquic_frames_varint_encode len).map (· ++ bytes.take len)

/-- Modelled from the spec: `picoquic_frames_uint16_encode` writes a
16-bit field as two bytes in network order. -/
def picoquic_frames_uint16_encode (v : Nat) : List Nat :=
  [v / 256 % 256, v % 256]

/-- Modelled from the spec: `picoquic_frames_cid_encode` writes the CID's
length as a varlen then its bytes, for CIDs within the maximum bound. -/
def picoquic_frames_cid_encode (cid : List Nat) : Option (List Nat) :=
  if cid.length ≤ PICOQUIC_CONNECTION_ID_MAX_SIZE then
    (picoquic_frames_varint_encode cid.length).map (· ++ cid)
  else none

/-- `qinq_copy_address`: builds the `sockaddr_storage` contents from the
raw wire address.  Length 4 gives IPv4, length 16 gives IPv6, anything
else is an error (`ret = -1`); on error the storage is not written, which
the `Option` models. -/
def qinq_copy_address (address_length : Nat) (address : List Nat) (port : Nat) :
    Option Addr :=
  if address_length = 4 then some (Addr.v4 address port)
  else if address_length = 16 then some (Addr.v6 address port)
  else none

/-- The scan-and-unlink loop shared by the two `picoqinq_find_*` walkers:
find the first entry satisfying `p`, returning it together with the list
with that entry removed (the walk keeps every earlier entry in place). -/
def findUnlink (p : HC → Bool) : List HC → Option (HC × List HC)
  | [] => none
  | e :: t =>
    if p e then some (e, t)
    else
      match findUnlink p t with
      | none => none
      | some (f, t2) => some (f, e :: t2)

/-- `picoqinq_find_reserve_header_by_id`: linear scan for the first entry
whose `hcid` matches; on a hit the entry is unlinked and relinked at the
front (when it is already the head the relink is skipped, which leaves
the same list), and the entry is returned; on a miss the list is
untouched and `NULL` is returned.  The result pairs the returned entry
with the registry contents after the call. -/
def picoqinq_find_reserve_header_by_id (reg : List HC) (hcid : Nat) :
    Option HC × List HC :=
  match findUnlink (fun e => e.hcid == hcid) reg with
  | none => (none, reg)
  | some (f, rest) => (some f, f :: rest)

/-- `picoqinq_find_reserve_header_id_by_address`: linear scan comparing
address equality (`picoquic_compare_addr == 0`) and exact CID equality
(length and bytes); on a hit the entry is promoted to the front and its
`hcid` is returned; on a miss the list is untouched and 0 is returned. -/
def picoqinq_find_reserve_header_id_by_address (reg : List HC) (addr : Addr)
    (cid : List Nat) : Nat × List HC :=
  match findUnlink
      (fun e => picoquic_compare_addr e.addr addr == 0 && e.cid == cid) reg with
  | none => (0, reg)
  | some (f, rest) => (f.hcid, f :: rest)

/-- The dedup scan of `picoqinq_reserve_header`: walk the tail of the
list and remove (free) every entry whose `hcid` equals `code`. -/
def removeCode (code : Nat) : List HC → List HC
  | [] => []
  | e :: t => if e.hcid == code then removeCode code t else e :: removeCode code t

/-- The non-NULL path of `picoqinq_reserve_header`: link `hc` at the
front, then scan the remainder removing every other entry with the same
code. -/
def picoqinq_reserve_header (hc : HC) (reg : List HC) : List HC :=
  hc :: removeCode hc.hcid reg

/-- `picoqinq_reserve_header` including its NULL guards: with a `NULL`
entry or a `NULL` head handle (`none` on either argument) the function
does nothing and the registry, when there is one, is left as it was. -/
def picoqinq_reserve_header_nullable :
    Option HC → Option (List HC) → Option (List HC)
  | some hc, some reg => some (picoqinq_reserve_header hc reg)
  | _, reg => reg

/-- `picoqinq_create_header`: pure construction of a detached entry; the
address is stored by copy and the CID's first `id_len` bytes are copied
(`memcpy` of `cid->id_len` bytes) together with the length. -/
def picoqinq_create_header (hcid : Nat) (addr : Addr) (cid : List Nat) : HC :=
  { hcid := hcid, addr := addr, cid := cid.take cid.length }

/-- `picoqinq_decode_datagram_header`.  Out-parameters: the address
storage (`addr_s`), the CID reference (`*cid`, `none` = `NULL`) and the
registry reached through `p_receive_hc`.  Both output slots are cleared
(`*cid = NULL`, `memset(addr_s, 0, ...)`) before any parsing, so the
initial contents `addr0`/`cid0` never survive the call.  Result order:
(advanced cursor, addr_s, *cid, registry). -/
def picoqinq_decode_datagram_header (bytes : List Nat) (reg : List HC)
    (addr0 : Option Addr) (cid0 : Option (List Nat)) :
    Option (List Nat) × Option Addr × Option (List Nat) × List HC :=
  let _ := addr0
  let _ := cid0
  match picoquic_frames_varint_decode bytes with
  | none => (none, none, none, reg)
  | some (hcid, b1) =>
    if hcid == 0 then
      match picoquic_frames_varlen_decode b1 with
      | none => (none, none, none, reg)
      | some (address_length, b2) =>
        let address := b2.take address_length
        match picoquic_frames_fixed_skip b2 address_length with
        | none => (none, none, none, reg)
        | some b3 =>
          match picoquic_frames_uint16_decode b3 with
          | none => (none, none, none, reg)
          | some (port, b4) =>
            match qinq_copy_address address_length address port with
            | none => (none, none, none, reg)
            | some a => (some b4, some a, none, reg)
    else
      match picoqinq_find_reserve_header_by_id reg hcid with
      | (none, reg2) => (none, none, none, reg2)
      | (some hc, reg2) => (some b1, some hc.addr, some hc.cid, reg2)

/-- `picoqinq_decode_reserve_header` (the opcode is already consumed).
Out-parameters `direction`, `hcid`, `addr_s` and `cid` are taken with
their initial contents and returned with their final contents: each
varint out-value is written as soon as its field parses, the CID is
written by `picoquic_frames_cid_decode` before the address length is
validated, and the address storage is written only by the final
`qinq_copy_address`.  Result order:
(advanced cursor, direction, hcid, addr_s, cid). -/
def picoqinq_decode_reserve_header (bytes : List Nat) (d0 h0 : Nat)
    (a0 : Option Addr) (c0 : List Nat) :
    Option (List Nat) × Nat × Nat × Option Addr × List Nat :=
  match picoquic_frames_varint_decode bytes with
  | none => (none, d0, h0, a0, c0)
  | some (direction, b1) =>
    match picoquic_frames_varint_decode b1 with
    | none => (none, direction, h0, a0, c0)
    | some (hcid, b2) =>
      match picoquic_frames_varlen_decode b2 with
      | none => (none, direction, hcid, a0, c0)
      | some (address_length, b3) =>
        let address := b3.take address_length
        match picoquic_frames_fixed_skip b3 address_length with
        | none => (none, direction, hcid, a0, c0)
        | some b4 =>
          match picoquic_frames_uint16_decode b4 with
          | none => (none, direction, hcid, a0, c0)
          | some (port, b5) =>
            match picoquic_frames_cid_decode b5 with
            | none => (none, direction, hcid, a0, c0)
            | some (cid, b6) =>
              match qinq_copy_address address_length address port with
              | none => (none, direction, hcid, a0, cid)
              | some a => (some b6, direction, hcid, some a, cid)

/-- `picoqinq_decode_reserve_cid` (the opcode is already consumed): just
the CID field.  Result order: (advanced cursor, cid out-parameter). -/
def picoqinq_decode_reserve_cid (bytes : List Nat) (c0 : List Nat) :
    Option (List Nat) × List Nat :=
  match picoquic_frames_cid_decode bytes with
  | none => (none, c0)
  | some (cid, r) => (some r, cid)

/-- `picoqinq_encode_reserve_header`: family dispatch picking the address
length, raw bytes and port, then opcode, direction, hcid, length-value
address, port and CID in sequence.  `none` models the `NULL` cursor (a
value that does not fit its field; an unsupported family cannot arise
here because `Addr` has only the two supported constructors). -/
def picoqinq_encode_reserve_header (direction hcid : Nat) (addr : Addr)
    (cid : List Nat) : Option (List Nat) :=
  let fam :=
    match addr with
    | .v4 a p => (4, a, p)
    | .v6 a p => (16, a, p)
  match fam with
  | (address_length, addr_bytes, port) => do
    let b1 ← picoquic_frames_varint_encode QINQ_PROTO_RESERVE_HEADER
    let b2 ← picoquic_frames_varint_encode direction
    let b3 ← picoquic_frames_varint_encode hcid
    let b4 ← picoquic_frames_l_v_encode address_length addr_bytes
    let b5 := picoquic_frames_uint16_encode port
    let b6 ← picoquic_frames_cid_encode cid
    pure (b1 ++ b2 ++ b3 ++ b4 ++ b5 ++ b6)

/-- `picoqinq_encode_reserve_cid`: opcode then the CID. -/
def picoqinq_encode_reserve_cid (cid : List Nat) : Option (List Nat) := do
  let b1 ← picoquic_frames_varint_encode QINQ_PROTO_RESERVE_CID
  let b2 ← picoquic_frames_cid_encode cid
  pure (b1 ++ b2)

/-- The port carried by an address value. -/
def Addr.port : Addr → Nat
  | .v4 _ p => p
  | .v6 _ p => p

/-- The registry obtained from a sequence of `picoqinq_reserve_header`
calls on an initially empty registry, oldest call first. -/
def regOfCalls (calls : List HC) : List HC :=
  calls.foldl (fun r hc => picoqinq_reserve_header hc r) []

/-! ### Helper lemmas about the registry scan loops -/

theorem findUnlink_eq_none {p : HC → Bool} {l : List HC}
    (h : ∀ e ∈ l, p e = false) : findUnlink p l = none := by
  induction l with
  | nil => rfl
  | cons e t ih =>
    have he : p e = false := h e (by simp)
    simp only [findUnlink, he, Bool.false_eq_true, if_false,
      ih (fun x hx => h x (by simp [hx]))]

theorem findUnlink_perm {p : HC → Bool} {l : List HC} {f : HC} {rest : List HC}
    (h : findUnlink p l = some (f, rest)) : (f :: rest).Perm l := by
  induction l generalizing f rest with
  | nil => simp [findUnlink] at h
  | cons e t ih =>
    rw [findUnlink] at h
    split at h
    · simp only [Option.some.injEq, Prod.mk.injEq] at h
      rw [← h.1, ← h.2]
    · rcases ht : findUnlink p t with _ | ⟨f2, t2⟩ <;> rw [ht] at h
      · simp at h
      · simp only [Option.some.injEq, Prod.mk.injEq] at h
        rw [← h.1, ← h.2]
        exact (List.Perm.swap e f2 t2).trans ((ih ht).cons e)

theorem findUnlink_mem {p : HC → Bool} {l : List HC} {f : HC} {rest : List HC}
    (h : findUnlink p l = some (f, rest)) : f ∈ l :=
  (findUnlink_perm h).mem_iff.mp (by simp)

theorem findUnlink_head {p : HC → Bool} {e : HC} {t : List HC}
    (h : p e = true) : findUnlink p (e :: t) = some (e, t) := by
  simp [findUnlink, h]

theorem findUnlink_none_forall {p : HC → Bool} {l : List HC}
    (h : findUnlink p l = none) : ∀ e ∈ l, p e = false := by
  induction l with
  | nil => intro e he; simp at he
  | cons e t ih =>
    rw [findUnlink] at h
    split at h
    · simp at h
    · intro x hx
      rcases List.mem_cons.mp hx with hx | hx
      · subst hx
        rename_i hp
        simpa using hp
      · cases ht : findUnlink p t with
        | none => exact ih ht x hx
        | some fr => obtain ⟨f2, t2⟩ := fr; rw [ht] at h; simp at h

theorem findUnlink_pred {p : HC → Bool} {l : List HC} {f : HC} {rest : List HC}
    (h : findUnlink p l = some (f, rest)) : p f = true := by
  induction l generalizing f rest with
  | nil => simp [findUnlink] at h
  | cons e t ih =>
    rw [findUnlink] at h
    split at h
    · simp only [Option.some.injEq, Prod.mk.injEq] at h
      rw [← h.1]
      assumption
    · cases ht : findUnlink p t with
      | none => rw [ht] at h; simp at h
      | some fr =>
        obtain ⟨f2, t2⟩ := fr
        rw [ht] at h
        simp only [Option.some.injEq, Prod.mk.injEq] at h
        rw [← h.1]
        exact ih ht

theorem removeCode_filter_self (code : Nat) (l : List HC) :
    (removeCode code l).filter (fun e => e.hcid == code) = [] := by
  induction l with
  | nil => rfl
  | cons e t ih =>
    by_cases h : e.hcid = code
    · simp [removeCode, h, ih]
    · simp [removeCode, h, ih, List.filter_cons]

theorem removeCode_filter_ne {c code : Nat} (h : ¬c = code) (l : List HC) :
    (removeCode code l).filter (fun e => e.hcid == c) =
      l.filter (fun e => e.hcid == c) := by
  induction l with
  | nil => rfl
  | cons e t ih =>
    by_cases he : e.hcid = code
    · have hb : (e.hcid == c) = false :=
        beq_eq_false_iff_ne.mpr (by rw [he]; exact fun hc => h hc.symm)
      have hcode : (e.hcid == code) = true := by simp [he]
      simp only [removeCode, hcode, if_true, ih, List.filter_cons, hb,
        Bool.false_eq_true, if_false]
    · have hcode : (e.hcid == code) = false := beq_eq_false_iff_ne.mpr he
      simp only [removeCode, hcode, Bool.false_eq_true, if_false,
        List.filter_cons, ih]

theorem regOfCalls_concat (calls : List HC) (hc : HC) :
    regOfCalls (calls ++ [hc]) = picoqinq_reserve_header hc (regOfCalls calls) := by
  simp [regOfCalls, List.foldl_append]

/-- The central registry invariant: after any sequence of reserve calls,
the entries carrying a given code are exactly the last call made with
that code (or nothing, when no call used it). -/
theorem regOfCalls_filter (calls : List HC) (code : Nat) :
    (regOfCalls calls).filter (fun e => e.hcid == code) =
      ((calls.filter (fun e => e.hcid == code)).getLast?).toList := by
  induction calls using List.reverseRecOn with
  | nil => rfl
  | append_singleton l hc ih =>
    rw [regOfCalls_concat]
    by_cases h : hc.hcid = code
    · have hb : (hc.hcid == code) = true := by simp [h]
      simp only [picoqinq_reserve_header, List.filter_cons, hb, if_true,
        List.filter_append, h, removeCode_filter_self]
      simp [List.filter_cons, hb, List.getLast?_concat]
    · have hb : (hc.hcid == code) = false := beq_eq_false_iff_ne.mpr h
      simp only [picoqinq_reserve_header, List.filter_cons, hb,
        Bool.false_eq_true, if_false, List.filter_append,
        removeCode_filter_ne (fun hce => h hce.symm), ih]
      simp [List.filter_cons, hb]

/-! ### Codec round-trip lemmas -/

theorem varint_decode_small {v : Nat} (h : v < 64) (rest : List Nat) :
    picoquic_frames_varint_decode (v :: rest) = some (v, rest) := by
  have hd : v / 64 = 0 := Nat.div_eq_of_lt h
  simp [picoquic_frames_varint_decode, hd, Nat.mod_eq_of_lt h]

theorem varint_encode_decode {v : Nat} (hv : v < 4611686018427387904) :
    ∃ e, picoquic_frames_varint_encode v = some e ∧
      ∀ rest, picoquic_frames_varint_decode (e ++ rest) = some (v, rest) := by
  by_cases h1 : v < 64
  · exact ⟨[v], by simp [picoquic_frames_varint_encode, h1],
      fun rest => varint_decode_small h1 rest⟩
  · by_cases h2 : v < 16384
    · refine ⟨[64 + v / 256, v % 256], ?_, fun rest => ?_⟩
      · simp [picoquic_frames_varint_encode, h1, h2]
      · have hd : (64 + v / 256) / 64 = 1 := by omega
        simp only [List.cons_append, List.nil_append,
          picoquic_frames_varint_decode, hd]
        have hval : (64 + v / 256) % 64 * 256 + v % 256 = v := by omega
        rw [hval]
    · by_cases h3 : v < 1073741824
      · refine ⟨[128 + v / 16777216, v / 65536 % 256, v / 256 % 256, v % 256],
          ?_, fun rest => ?_⟩
        · simp [picoquic_frames_varint_encode, h1, h2, h3]
        · have hd : (128 + v / 16777216) / 64 = 2 := by omega
          simp only [List.cons_append, List.nil_append,
            picoquic_frames_varint_decode, hd]
          have hval : (((128 + v / 16777216) % 64 * 256 + v / 65536 % 256) * 256
              + v / 256 % 256) * 256 + v % 256 = v := by omega
          rw [hval]
      · refine ⟨[192 + v / 72057594037927936, v / 281474976710656 % 256,
          v / 1099511627776 % 256, v / 4294967296 % 256, v / 16777216 % 256,
          v / 65536 % 256, v / 256 % 256, v % 256], ?_, fun rest => ?_⟩
        · simp [picoquic_frames_varint_encode, h1, h2, h3, hv]
        · have hd : (192 + v / 72057594037927936) / 64 = 3 := by omega
          simp only [List.cons_append, List.nil_append,
            picoquic_frames_varint_decode, hd]
          have hval : (((((((192 + v / 72057594037927936) % 64 * 256
              + v / 281474976710656 % 256) * 256 + v / 1099511627776 % 256) * 256
              + v / 4294967296 % 256) * 256 + v / 16777216 % 256) * 256
              + v / 65536 % 256) * 256 + v / 256 % 256) * 256 + v % 256 = v := by
            omega
          rw [hval]

theorem fixed_skip_exact {a : List Nat} {n : Nat} (h : a.length = n)
    (rest : List Nat) :
    picoquic_frames_fixed_skip (a ++ rest) n = some rest := by
  subst h
  simp [picoquic_frames_fixed_skip, List.drop_left]

theorem take_exact {a : List Nat} {n : Nat} (h : a.length = n) (rest : List Nat) :
    (a ++ rest).take n = a := by
  subst h
  exact List.take_left a rest

theorem uint16_encode_decode {p : Nat} (hp : p < 65536) (rest : List Nat) :
    picoquic_frames_uint16_decode (picoquic_frames_uint16_encode p ++ rest) =
      some (p, rest) := by
  simp only [picoquic_frames_uint16_encode, List.cons_append, List.nil_append,
    picoquic_frames_uint16_decode]
  have hval : p / 256 % 256 * 256 + p % 256 = p := by omega
  rw [hval]

theorem cid_encode_decode {cid : List Nat}
    (h : cid.length ≤ PICOQUIC_CONNECTION_ID_MAX_SIZE) :
    ∃ e, picoquic_frames_cid_encode cid = some e ∧
      ∀ rest, picoquic_frames_cid_decode (e ++ rest) = some (cid, rest) := by
  have h64 : cid.length < 64 := by
    simp only [PICOQUIC_CONNECTION_ID_MAX_SIZE] at h; omega
  refine ⟨cid.length :: cid, ?_, fun rest => ?_⟩
  · simp [picoquic_frames_cid_encode, h, picoquic_frames_varint_encode, h64]
  · simp only [List.cons_append, picoquic_frames_cid_decode,
      picoquic_frames_varlen_decode, varint_decode_small h64, h, if_true,
      fixed_skip_exact rfl, List.take_left]

/-! ### Extension lemmas: a successful decode is unaffected by appending
bytes after the part it consumes (the decoders never look past the bytes
they consume, hence never read past the provided limit). -/

theorem varint_decode_ext {xs : List Nat} {v : Nat} {r : List Nat}
    (h : picoquic_frames_varint_decode xs = some (v, r)) (e : List Nat) :
    picoquic_frames_varint_decode (xs ++ e) = some (v, r ++ e) := by
  match xs with
  | [] => simp [picoquic_frames_varint_decode] at h
  | b :: rest =>
    rw [List.cons_append]
    rcases hb : b / 64 with _ | _ | _ | k
    · simp only [picoquic_frames_varint_decode, hb] at h ⊢
      simp only [Option.some.injEq, Prod.mk.injEq] at h
      simp [h.1, h.2]
    · match rest with
      | [] => simp [picoquic_frames_varint_decode, hb] at h
      | b1 :: r1 =>
        simp only [picoquic_frames_varint_decode, hb, List.cons_append] at h ⊢
        simp only [Option.some.injEq, Prod.mk.injEq] at h
        simp [h.1, h.2]
    · match rest with
      | [] | [b1] | [b1, b2] => simp [picoquic_frames_varint_decode, hb] at h
      | b1 :: b2 :: b3 :: r3 =>
        simp only [picoquic_frames_varint_decode, hb, List.cons_append] at h ⊢
        simp only [Option.some.injEq, Prod.mk.injEq] at h
        simp [h.1, h.2]
    · match rest with
      | [] | [b1] | [b1, b2] | [b1, b2, b3] | [b1, b2, b3, b4]
      | [b1, b2, b3, b4, b5] | [b1, b2, b3, b4, b5, b6] =>
        simp [picoquic_frames_varint_decode, hb] at h
      | b1 :: b2 :: b3 :: b4 :: b5 :: b6 :: b7 :: r7 =>
        simp only [picoquic_frames_varint_decode, hb, List.cons_append] at h ⊢
        simp only [Option.some.injEq, Prod.mk.injEq] at h
        simp [h.1, h.2]

theorem varlen_decode_ext {xs : List Nat} {v : Nat} {r : List Nat}
    (h : picoquic_frames_varlen_decode xs = some (v, r)) (e : List Nat) :
    picoquic_frames_varlen_decode (xs ++ e) = some (v, r ++ e) :=
  varint_decode_ext h e

theorem fixed_skip_le {xs r : List Nat} {n : Nat}
    (h : picoquic_frames_fixed_skip xs n = some r) : n ≤ xs.length := by
  rw [picoquic_frames_fixed_skip] at h
  split at h
  · assumption
  · simp at h

theorem fixed_skip_ext {xs r : List Nat} {n : Nat}
    (h : picoquic_frames_fixed_skip xs n = some r) (e : List Nat) :
    picoquic_frames_fixed_skip (xs ++ e) n = some (r ++ e) := by
  have hle := fixed_skip_le h
  rw [picoquic_frames_fixed_skip, if_pos hle, Option.some.injEq] at h
  rw [picoquic_frames_fixed_skip, if_pos (by simp; omega),
    List.drop_append_of_le_length hle, h]

theorem uint16_decode_ext {xs : List Nat} {v : Nat} {r : List Nat}
    (h : picoquic_frames_uint16_decode xs = some (v, r)) (e : List Nat) :
    picoquic_frames_uint16_decode (xs ++ e) = some (v, r ++ e) := by
  match xs with
  | [] => simp [picoquic_frames_uint16_decode] at h
  | [b0] => simp [picoquic_frames_uint16_decode] at h
  | b0 :: b1 :: r1 =>
    simp only [picoquic_frames_uint16_decode, Option.some.injEq,
      Prod.mk.injEq] at h
    simp [picoquic_frames_uint16_decode, h.1, h.2]

theorem cid_decode_ext {xs : List Nat} {c r : List Nat}
    (h : picoquic_frames_cid_decode xs = some (c, r)) (e : List Nat) :
    picoquic_frames_cid_decode (xs ++ e) = some (c, r ++ e) := by
  rw [picoquic_frames_cid_decode] at h
  cases hv : picoquic_frames_varlen_decode xs with
  | none => rw [hv] at h; simp at h
  | some p =>
    obtain ⟨len, r1⟩ := p
    rw [hv] at h
    simp only at h
    split at h
    case isTrue hmax =>
      cases hs : picoquic_frames_fixed_skip r1 len with
      | none => rw [hs] at h; simp at h
      | some r2 =>
        rw [hs] at h
        simp only [Option.some.injEq, Prod.mk.injEq] at h
        rw [picoquic_frames_cid_decode, varlen_decode_ext hv e]
        simp only [hmax, if_true, fixed_skip_ext hs e,
          List.take_append_of_le_length (fixed_skip_le hs), h.1, h.2]
    case isFalse => simp at h

/-- A successful reserve-header decode only depends on, and only
consumes, the bytes up to its final cursor: appending extra bytes leaves
the decode successful with the same outputs and the extra bytes after
the cursor. -/
theorem decode_reserve_header_ext {xs : List Nat} {d0 h0 : Nat}
    {a0 : Option Addr} {c0 : List Nat} {rem : List Nat}
    (h : (picoqinq_decode_reserve_header xs d0 h0 a0 c0).1 = some rem)
    (e : List Nat) :
    (picoqinq_decode_reserve_header (xs ++ e) d0 h0 a0 c0).1 = some (rem ++ e) := by
  rw [picoqinq_decode_reserve_header] at h
  cases h1 : picoquic_frames_varint_decode xs with
  | none => simp [h1] at h
  | some p1 =>
  obtain ⟨d, b1⟩ := p1
  simp only [h1] at h
  cases h2 : picoquic_frames_varint_decode b1 with
  | none => simp [h2] at h
  | some p2 =>
  obtain ⟨hc, b2⟩ := p2
  simp only [h2] at h
  cases h3 : picoquic_frames_varlen_decode b2 with
  | none => simp [h3] at h
  | some p3 =>
  obtain ⟨alen, b3⟩ := p3
  simp only [h3] at h
  cases h4 : picoquic_frames_fixed_skip b3 alen with
  | none => simp [h4] at h
  | some b4 =>
  simp only [h4] at h
  cases h5 : picoquic_frames_uint16_decode b4 with
  | none => simp [h5] at h
  | some p5 =>
  obtain ⟨port, b5⟩ := p5
  simp only [h5] at h
  cases h6 : picoquic_frames_cid_decode b5 with
  | none => simp [h6] at h
  | some p6 =>
  obtain ⟨cid, b6⟩ := p6
  simp only [h6] at h
  cases h7 : qinq_copy_address alen (b3.take alen) port with
  | none => simp [h7] at h
  | some aa =>
  simp only [h7] at h
  have hb : b6 = rem := by simpa using h
  subst hb
  rw [picoqinq_decode_reserve_header]
  simp only [varint_decode_ext h1 e, varint_decode_ext h2 e,
    varlen_decode_ext h3 e, List.take_append_of_le_length (fixed_skip_le h4),
    fixed_skip_ext h4 e, uint16_decode_ext h5 e, cid_decode_ext h6 e, h7]

/-- Same extension property for the datagram-header decoder (whose
compressed branch consults the registry, independent of the trailing
bytes). -/
theorem decode_datagram_header_ext {xs : List Nat} {reg : List HC}
    {a0 : Option Addr} {c0 : Option (List Nat)} {rem : List Nat}
    (h : (picoqinq_decode_datagram_header xs reg a0 c0).1 = some rem)
    (e : List Nat) :
    (picoqinq_decode_datagram_header (xs ++ e) reg a0 c0).1 = some (rem ++ e) := by
  rw [picoqinq_decode_datagram_header] at h
  cases h1 : picoquic_frames_varint_decode xs with
  | none => simp [h1] at h
  | some p1 =>
  obtain ⟨hcid, b1⟩ := p1
  simp only [h1] at h
  rw [picoqinq_decode_datagram_header]
  simp only [varint_decode_ext h1 e]
  by_cases hz : hcid == 0
  · simp only [hz, if_true] at h ⊢
    cases h2 : picoquic_frames_varlen_decode b1 with
    | none => simp [h2] at h
    | some p2 =>
    obtain ⟨alen, b2⟩ := p2
    simp only [h2] at h
    cases h3 : picoquic_frames_fixed_skip b2 alen with
    | none => simp [h3] at h
    | some b3 =>
    simp only [h3] at h
    cases h4 : picoquic_frames_uint16_decode b3 with
    | none => simp [h4] at h
    | some p4 =>
    obtain ⟨port, b4⟩ := p4
    simp only [h4] at h
    cases h5 : qinq_copy_address alen (b2.take alen) port with
    | none => simp [h5] at h
    | some a =>
    simp only [h5] at h
    have hb : b4 = rem := by simpa using h
    subst hb
    simp only [varlen_decode_ext h2 e,
      List.take_append_of_le_length (fixed_skip_le h3), fixed_skip_ext h3 e,
      uint16_decode_ext h4 e, h5]
  · simp only [hz, Bool.false_eq_true, if_false] at h ⊢
    cases hf : picoqinq_find_reserve_header_by_id reg hcid with
    | mk o reg2 =>
    cases o with
    | none => rw [hf] at h; simp at h
    | some hc =>
      rw [hf] at h
      have hb : b1 = rem := by simpa using h
      subst hb
      rfl

/-- Same extension property for the reserve-CID decoder. -/
theorem decode_reserve_cid_ext {xs : List Nat} {c0 : List Nat} {rem : List Nat}
    (h : (picoqinq_decode_reserve_cid xs c0).1 = some rem) (e : List Nat) :
    (picoqinq_decode_reserve_cid (xs ++ e) c0).1 = some (rem ++ e) := by
  rw [picoqinq_decode_reserve_cid] at h
  cases hc : picoquic_frames_cid_decode xs with
  | none => rw [hc] at h; simp at h
  | some p =>
    obtain ⟨c, r⟩ := p
    rw [hc] at h
    have hb : r = rem := by simpa using h
    subst hb
    rw [picoqinq_decode_reserve_cid, cid_decode_ext hc e]

/-! ### Claim theorems -/

/-- C1: for every sequence of reserve calls on an initially empty
registry, afterwards every code has at most one entry, that entry is the
entry of the last reserve call made with that code, and the last call's
entry is indeed present. -/
theorem claim_C1_registry_dedup_last_wins (calls : List HC) (code : Nat) :
    ((regOfCalls calls).filter (fun e => e.hcid == code)).length ≤ 1 ∧
    (∀ e ∈ regOfCalls calls, e.hcid = code →
      (calls.filter (fun e2 => e2.hcid == code)).getLast? = some e) ∧
    (∀ h, (calls.filter (fun e2 => e2.hcid == code)).getLast? = some h →
      h ∈ regOfCalls calls) := by
  have key := regOfCalls_filter calls code
  refine ⟨?_, ?_, ?_⟩
  · rw [key]
    cases (calls.filter (fun e2 => e2.hcid == code)).getLast? <;> simp
  · intro e he hcode
    have hm : e ∈ (regOfCalls calls).filter (fun e => e.hcid == code) :=
      List.mem_filter.mpr ⟨he, by simp [hcode]⟩
    rw [key] at hm
    simpa using hm
  · intro h hlast
    have hm : h ∈ (regOfCalls calls).filter (fun e => e.hcid == code) := by
      rw [key, hlast]; simp
    exact List.mem_of_mem_filter hm

/-- Witness for C1 at a concrete call sequence: two reserves with code 1,
the second one wins and is the only survivor. -/
theorem claim_C1_registry_dedup_last_wins_witness :
    ((regOfCalls [⟨1, Addr.v4 [1, 2, 3, 4] 9, [1]⟩, ⟨1, Addr.v4 [5, 6, 7, 8] 10, [2]⟩]).filter
        (fun e => e.hcid == 1)).length ≤ 1 ∧
    (⟨1, Addr.v4 [5, 6, 7, 8] 10, [2]⟩ : HC) ∈
      regOfCalls [⟨1, Addr.v4 [1, 2, 3, 4] 9, [1]⟩, ⟨1, Addr.v4 [5, 6, 7, 8] 10, [2]⟩] :=
  ⟨(claim_C1_registry_dedup_last_wins
      [⟨1, Addr.v4 [1, 2, 3, 4] 9, [1]⟩, ⟨1, Addr.v4 [5, 6, 7, 8] 10, [2]⟩] 1).1,
    (claim_C1_registry_dedup_last_wins
      [⟨1, Addr.v4 [1, 2, 3, 4] 9, [1]⟩, ⟨1, Addr.v4 [5, 6, 7, 8] 10, [2]⟩] 1).2.2
      ⟨1, Addr.v4 [5, 6, 7, 8] 10, [2]⟩ (by decide)⟩

/-- C3: `picoqinq_create_header` is pure construction — for every CID
within the maximum bound it yields a detached entry whose code, address
and CID (length and bytes) equal the arguments, touching no registry
(the function does not even receive one). -/
theorem claim_C3_create_header_pure (hcid : Nat) (addr : Addr) (cid : List Nat)
    (hlen : cid.length ≤ PICOQUIC_CONNECTION_ID_MAX_SIZE) :
    (picoqinq_create_header hcid addr cid).hcid = hcid ∧
    (picoqinq_create_header hcid addr cid).addr = addr ∧
    (picoqinq_create_header hcid addr cid).cid = cid := by
  refine ⟨rfl, rfl, ?_⟩
  simp [picoqinq_create_header]

/-- Witness for C3 at a concrete entry. -/
theorem claim_C3_create_header_pure_witness :
    (picoqinq_create_header 5 (Addr.v4 [1, 2, 3, 4] 9) [1, 2]).hcid = 5 ∧
    (picoqinq_create_header 5 (Addr.v4 [1, 2, 3, 4] 9) [1, 2]).addr =
      Addr.v4 [1, 2, 3, 4] 9 ∧
    (picoqinq_create_header 5 (Addr.v4 [1, 2, 3, 4] 9) [1, 2]).cid = [1, 2] :=
  claim_C3_create_header_pure 5 (Addr.v4 [1, 2, 3, 4] 9) [1, 2] (by decide)

/-- C4 counterexample: nothing in the code prevents an entry with code 0
from being created and reserved, and `picoqinq_find_reserve_header_by_id`
then matches it — so the claim is false for arbitrary registry states. -/
theorem claim_C4_counterexample :
    (picoqinq_find_reserve_header_by_id
        (picoqinq_reserve_header
          (picoqinq_create_header 0 (Addr.v4 [1, 2, 3, 4] 9) [7]) []) 0).1 =
      some (picoqinq_create_header 0 (Addr.v4 [1, 2, 3, 4] 9) [7]) := by decide

/-- C4 amended: over registries all of whose entries obey the MUST NOT
(no entry carries code 0), a lookup with the sentinel code 0 never
matches and leaves the registry untouched. -/
theorem claim_C4_sentinel_code_amended (reg : List HC)
    (h : ∀ e ∈ reg, e.hcid ≠ 0) :
    picoqinq_find_reserve_header_by_id reg 0 = (none, reg) := by
  have hn : findUnlink (fun e => e.hcid == 0) reg = none :=
    findUnlink_eq_none (fun e he => by simpa using h e he)
  rw [picoqinq_find_reserve_header_by_id, hn]

/-- Witness for the amended C4 at a concrete registry. -/
theorem claim_C4_sentinel_code_amended_witness :
    picoqinq_find_reserve_header_by_id [⟨1, Addr.v4 [1, 2, 3, 4] 9, [7]⟩] 0 =
      (none, [⟨1, Addr.v4 [1, 2, 3, 4] 9, [7]⟩]) :=
  claim_C4_sentinel_code_amended [⟨1, Addr.v4 [1, 2, 3, 4] 9, [7]⟩] (by decide)

/-- C5: after reserving A(code 1), B(code 2), C(code 3) in that order the
registry reads C, B, A front to back; looking code 1 up succeeds,
returns A, and promotes it: the order becomes A, C, B. -/
theorem claim_C5_lru_promotion (aA aB aC : Addr) (cA cB cC : List Nat) :
    picoqinq_reserve_header ⟨3, aC, cC⟩
        (picoqinq_reserve_header ⟨2, aB, cB⟩
          (picoqinq_reserve_header ⟨1, aA, cA⟩ [])) =
      [⟨3, aC, cC⟩, ⟨2, aB, cB⟩, ⟨1, aA, cA⟩] ∧
    picoqinq_find_reserve_header_by_id
        [⟨3, aC, cC⟩, ⟨2, aB, cB⟩, ⟨1, aA, cA⟩] 1 =
      (some ⟨1, aA, cA⟩, [⟨1, aA, cA⟩, ⟨3, aC, cC⟩, ⟨2, aB, cB⟩]) :=
  ⟨rfl, rfl⟩

/-- C8: the literal-address datagram header `00 04 C0 00 02 01 1F 90`
decodes through the hcid = 0 branch to the IPv4 address 192.0.2.1 with
port 8080, an unset CID output, the cursor at the end of the input, and
the registry untouched — whatever the registry and the initial contents
of the output slots were. -/
theorem claim_C8_literal_address_decode (reg : List HC) (addr0 : Option Addr)
    (cid0 : Option (List Nat)) :
    picoqinq_decode_datagram_header [0x00, 0x04, 0xC0, 0x00, 0x02, 0x01, 0x1F, 0x90]
        reg addr0 cid0 =
      (some [], some (Addr.v4 [0xC0, 0x00, 0x02, 0x01] 0x1F90), none, reg) := rfl

/-- C9: `picoqinq_reserve_header` with a `NULL` entry or a `NULL` head
handle is a total no-op: nothing is linked, unlinked or freed, and
whatever registry exists is returned unchanged. -/
theorem claim_C9_reserve_null_noop (reg : Option (List HC)) (hc : Option HC) :
    picoqinq_reserve_header_nullable none reg = reg ∧
    picoqinq_reserve_header_nullable hc none = none := by
  constructor
  · cases reg <;> rfl
  · cases hc <;> rfl

/-- C10: the two lookups never change the set of entries: the result is
always a permutation of the registry; a miss leaves the registry exactly
unchanged; a hit — for the lookup by code and for the lookup by address
and CID alike — moves the hit entry to the front of the same entries;
and a hit that is already the head leaves the registry exactly
unchanged. -/
theorem claim_C10_find_preserves_entries (reg : List HC) (code : Nat)
    (addr : Addr) (cid : List Nat) :
    ((picoqinq_find_reserve_header_by_id reg code).2).Perm reg ∧
    ((picoqinq_find_reserve_header_id_by_address reg addr cid).2).Perm reg ∧
    ((picoqinq_find_reserve_header_by_id reg code).1 = none →
      (picoqinq_find_reserve_header_by_id reg code).2 = reg) ∧
    ((∀ e ∈ reg, ¬(e.addr = addr ∧ e.cid = cid)) →
      picoqinq_find_reserve_header_id_by_address reg addr cid = (0, reg)) ∧
    (∀ f, (picoqinq_find_reserve_header_by_id reg code).1 = some f →
      f ∈ reg ∧ ∃ t, (picoqinq_find_reserve_header_by_id reg code).2 = f :: t) ∧
    (∀ f t, reg = f :: t → f.hcid = code →
      picoqinq_find_reserve_header_by_id reg code = (some f, reg)) ∧
    (∀ f t, reg = f :: t → f.addr = addr → f.cid = cid →
      picoqinq_find_reserve_header_id_by_address reg addr cid = (f.hcid, reg)) ∧
    (∀ e ∈ reg, e.addr = addr → e.cid = cid →
      ∃ f t, picoqinq_find_reserve_header_id_by_address reg addr cid =
          (f.hcid, f :: t) ∧
        f.addr = addr ∧ f.cid = cid ∧ f ∈ reg ∧ (f :: t).Perm reg) := by
  refine ⟨?_, ?_, ?_, ?_, ?_, ?_, ?_, ?_⟩
  · rw [picoqinq_find_reserve_header_by_id]
    rcases hfu : findUnlink (fun e => e.hcid == code) reg with _ | ⟨f, rest⟩
    · exact List.Perm.refl reg
    · exact findUnlink_perm hfu
  · rw [picoqinq_find_reserve_header_id_by_address]
    rcases hfu : findUnlink
        (fun e => picoquic_compare_addr e.addr addr == 0 && e.cid == cid) reg
      with _ | ⟨f, rest⟩
    · exact List.Perm.refl reg
    · exact findUnlink_perm hfu
  · rw [picoqinq_find_reserve_header_by_id]
    rcases hfu : findUnlink (fun e => e.hcid == code) reg with _ | ⟨f, rest⟩
    · intro _; rfl
    · intro hnone; simp at hnone
  · intro hmiss
    have hn : findUnlink
        (fun e => picoquic_compare_addr e.addr addr == 0 && e.cid == cid) reg = none := by
      refine findUnlink_eq_none (fun e he => ?_)
      have := hmiss e he
      by_cases ha : e.addr = addr <;> by_cases hcid : e.cid = cid <;>
        simp [picoquic_compare_addr, ha, hcid] at this ⊢
    rw [picoqinq_find_reserve_header_id_by_address, hn]
  · intro f hsome
    rw [picoqinq_find_reserve_header_by_id] at hsome
    cases hfu : findUnlink (fun e => e.hcid == code) reg with
    | none => rw [hfu] at hsome; simp at hsome
    | some fr =>
      obtain ⟨f2, rest⟩ := fr
      rw [hfu] at hsome
      have hf : f2 = f := by simpa using hsome
      subst hf
      refine ⟨findUnlink_mem hfu, rest, ?_⟩
      rw [picoqinq_find_reserve_header_by_id, hfu]
  · intro f t hreg hcode
    subst hreg
    rw [picoqinq_find_reserve_header_by_id,
      findUnlink_head (p := fun e => e.hcid == code) (by simp [hcode])]
  · intro f t hreg ha hcid
    subst hreg
    rw [picoqinq_find_reserve_header_id_by_address,
      findUnlink_head
        (p := fun e => picoquic_compare_addr e.addr addr == 0 && e.cid == cid)
        (by simp [picoquic_compare_addr, ha, hcid])]
  · intro e he ha hc
    cases hfu : findUnlink
        (fun x => picoquic_compare_addr x.addr addr == 0 && x.cid == cid) reg with
    | none =>
      have := findUnlink_none_forall hfu e he
      simp [picoquic_compare_addr, ha, hc] at this
    | some p =>
      obtain ⟨f, rest⟩ := p
      have hp := findUnlink_pred hfu
      simp only [Bool.and_eq_true, beq_iff_eq] at hp
      have hfaddr : f.addr = addr := by
        rcases hp with ⟨hp1, _⟩
        rw [picoquic_compare_addr] at hp1
        split at hp1
        · assumption
        · simp at hp1
      refine ⟨f, rest, ?_, hfaddr, hp.2, findUnlink_mem hfu, findUnlink_perm hfu⟩
      rw [picoqinq_find_reserve_header_id_by_address, hfu]

/-- C6: encoding a valid Reserve-Header request and decoding the result
(after the opcode varint, which the decoder assumes consumed) returns the
same direction, hcid, address (with its port) and CID, with the cursor
advanced exactly to the end of the encoding, whatever the initial
contents of the decoder's out-parameters. -/
theorem claim_C6_reserve_header_roundtrip (direction hcid : Nat) (addr : Addr)
    (cid : List Nat) (d0 h0 : Nat) (a0 : Option Addr) (c0 : List Nat)
    (hdir : direction ≤ 1) (hh : hcid < 4611686018427387904)
    (hwf : addr.wf) (hport : addr.port < 65536)
    (hlen : cid.length ≤ PICOQUIC_CONNECTION_ID_MAX_SIZE) :
    ∃ enc body,
      picoqinq_encode_reserve_header direction hcid addr cid = some enc ∧
      picoquic_frames_varint_decode enc = some (QINQ_PROTO_RESERVE_HEADER, body) ∧
      picoqinq_decode_reserve_header body d0 h0 a0 c0 =
        (some [], direction, hcid, some addr, cid) := by
  obtain ⟨e2, he2, hde2⟩ := varint_encode_decode (v := direction) (by omega)
  obtain ⟨e3, he3, hde3⟩ := varint_encode_decode (v := hcid) hh
  obtain ⟨e6, he6, hde6⟩ := cid_encode_decode hlen
  have hde6nil : picoquic_frames_cid_decode e6 = some (cid, []) := by
    simpa using hde6 []
  have hop : picoquic_frames_varint_encode QINQ_PROTO_RESERVE_HEADER = some [1] := rfl
  cases addr with
  | v4 a p =>
    have hwf4 : a.length = 4 := hwf
    have hp : p < 65536 := hport
    have htake : a.take 4 = a := by rw [← hwf4]; simp
    have hlv : picoquic_frames_l_v_encode 4 a = some (4 :: a) := by
      simp [picoquic_frames_l_v_encode, picoquic_frames_varint_encode, htake]
    refine ⟨1 :: (e2 ++ (e3 ++ (4 :: (a ++ (picoquic_frames_uint16_encode p ++ e6))))),
      e2 ++ (e3 ++ (4 :: (a ++ (picoquic_frames_uint16_encode p ++ e6)))),
      ?_, rfl, ?_⟩
    · simp [picoqinq_encode_reserve_header, hop, he2, he3, hlv, he6]
    · simp [picoqinq_decode_reserve_header, hde2, hde3,
        picoquic_frames_varlen_decode,
        varint_decode_small (show (4 : Nat) < 64 by norm_num),
        take_exact hwf4, fixed_skip_exact hwf4, uint16_encode_decode hp,
        hde6nil, qinq_copy_address]
  | v6 a p =>
    have hwf16 : a.length = 16 := hwf
    have hp : p < 65536 := hport
    have htake : a.take 16 = a := by rw [← hwf16]; simp
    have hlv : picoquic_frames_l_v_encode 16 a = some (16 :: a) := by
      simp [picoquic_frames_l_v_encode, picoquic_frames_varint_encode, htake]
    refine ⟨1 :: (e2 ++ (e3 ++ (16 :: (a ++ (picoquic_frames_uint16_encode p ++ e6))))),
      e2 ++ (e3 ++ (16 :: (a ++ (picoquic_frames_uint16_encode p ++ e6)))),
      ?_, rfl, ?_⟩
    · simp [picoqinq_encode_reserve_header, hop, he2, he3, hlv, he6]
    · simp [picoqinq_decode_reserve_header, hde2, hde3,
        picoquic_frames_varlen_decode,
        varint_decode_small (show (16 : Nat) < 64 by norm_num),
        take_exact hwf16, fixed_skip_exact hwf16, uint16_encode_decode hp,
        hde6nil, qinq_copy_address]

/-- Witness for C6 at a concrete request. -/
theorem claim_C6_reserve_header_roundtrip_witness :
    ∃ enc body,
      picoqinq_encode_reserve_header 0 5 (Addr.v4 [192, 0, 2, 1] 8080) [1, 2] =
        some enc ∧
      picoquic_frames_varint_decode enc = some (QINQ_PROTO_RESERVE_HEADER, body) ∧
      picoqinq_decode_reserve_header body 99 98 none [9] =
        (some [], 0, 5, some (Addr.v4 [192, 0, 2, 1] 8080), [1, 2]) :=
  claim_C6_reserve_header_roundtrip 0 5 (Addr.v4 [192, 0, 2, 1] 8080) [1, 2]
    99 98 none [9] (by decide) (by decide) (by decide) (by decide) (by decide)

/-- C7: truncating a validly encoded message (one whose decode succeeds
consuming exactly its bytes) at any byte boundary before its end makes
the matching decode fail — it never succeeds, with wrong data or
otherwise.  (The decoders are functions of the byte list up to the
limit, so reading past the provided limit is not expressible at all.) -/
theorem claim_C7_truncation_fails :
    (∀ (msg : List Nat) (reg : List HC) (a0 : Option Addr)
        (c0 : Option (List Nat)) (k : Nat),
      (picoqinq_decode_datagram_header msg reg a0 c0).1 = some [] →
      k < msg.length →
      (picoqinq_decode_datagram_header (msg.take k) reg a0 c0).1 = none) ∧
    (∀ (msg : List Nat) (d0 h0 : Nat) (a0 : Option Addr) (c0 : List Nat)
        (k : Nat),
      (picoqinq_decode_reserve_header msg d0 h0 a0 c0).1 = some [] →
      k < msg.length →
      (picoqinq_decode_reserve_header (msg.take k) d0 h0 a0 c0).1 = none) ∧
    (∀ (msg : List Nat) (c0 : List Nat) (k : Nat),
      (picoqinq_decode_reserve_cid msg c0).1 = some [] → k < msg.length →
      (picoqinq_decode_reserve_cid (msg.take k) c0).1 = none) := by
  refine ⟨?_, ?_, ?_⟩
  · intro msg reg a0 c0 k hfull hk
    by_contra hne
    obtain ⟨rem, hrem⟩ := Option.ne_none_iff_exists'.mp hne
    have hext := decode_datagram_header_ext hrem (msg.drop k)
    rw [List.take_append_drop, hfull] at hext
    have hnil : [] = rem ++ msg.drop k := by simpa using hext
    have hdrop : msg.drop k = [] := (List.append_eq_nil.mp hnil.symm).2
    have := List.drop_eq_nil_iff.mp hdrop
    omega
  · intro msg d0 h0 a0 c0 k hfull hk
    by_contra hne
    obtain ⟨rem, hrem⟩ := Option.ne_none_iff_exists'.mp hne
    have hext := decode_reserve_header_ext hrem (msg.drop k)
    rw [List.take_append_drop, hfull] at hext
    have hnil : [] = rem ++ msg.drop k := by simpa using hext
    have hdrop : msg.drop k = [] := (List.append_eq_nil.mp hnil.symm).2
    have := List.drop_eq_nil_iff.mp hdrop
    omega
  · intro msg c0 k hfull hk
    by_contra hne
    obtain ⟨rem, hrem⟩ := Option.ne_none_iff_exists'.mp hne
    have hext := decode_reserve_cid_ext hrem (msg.drop k)
    rw [List.take_append_drop, hfull] at hext
    have hnil : [] = rem ++ msg.drop k := by simpa using hext
    have hdrop : msg.drop k = [] := (List.append_eq_nil.mp hnil.symm).2
    have := List.drop_eq_nil_iff.mp hdrop
    omega

/-- Witness for C7: concrete truncations of one valid message of each of
the three kinds all fail to decode. -/
theorem claim_C7_truncation_fails_witness :
    (picoqinq_decode_datagram_header
      ([0, 4, 192, 0, 2, 1, 31, 144].take 3) [] none none).1 = none ∧
    (picoqinq_decode_reserve_header
      ([0, 5, 4, 192, 0, 2, 1, 31, 144, 2, 1, 2].take 5) 0 0 none []).1 = none ∧
    (picoqinq_decode_reserve_cid ([2, 1, 2].take 1) [9]).1 = none :=
  ⟨claim_C7_truncation_fails.1 [0, 4, 192, 0, 2, 1, 31, 144] [] none none 3
      (by decide) (by decide),
    claim_C7_truncation_fails.2.1 [0, 5, 4, 192, 0, 2, 1, 31, 144, 2, 1, 2]
      0 0 none [] 5 (by decide) (by decide),
    claim_C7_truncation_fails.2.2 [2, 1, 2] [9] 1 (by decide) (by decide)⟩

/-- C2 counterexample: the reserve-header decoder on the one-byte input
`01` fails (NULL cursor) but has already written the parsed value 1 into
the caller-visible `direction` out-parameter, which initially held 0 —
so a failing decode does partially mutate caller-visible output
parameters. -/
theorem claim_C2_counterexample :
    (picoqinq_decode_reserve_header [1] 0 0 none []).1 = none ∧
    ¬(picoqinq_decode_reserve_header [1] 0 0 none []).2.1 = 0 := by decide

/-- C2 amended: on any failing decode the cursor is NULL and the
registry — the one piece of shared state — is never mutated: a failed
datagram-header decode (in particular a failed lookup) leaves the
registry exactly as it was.  Output parameters, however, may have been
partially overwritten before the failure was detected. -/
theorem claim_C2_failure_registry_untouched (bytes : List Nat) (reg : List HC)
    (a0 : Option Addr) (c0 : Option (List Nat))
    (h : (picoqinq_decode_datagram_header bytes reg a0 c0).1 = none) :
    (picoqinq_decode_datagram_header bytes reg a0 c0).2.2.2 = reg := by
  rw [picoqinq_decode_datagram_header] at h ⊢
  cases h1 : picoquic_frames_varint_decode bytes with
  | none => simp [h1]
  | some p1 =>
  obtain ⟨hcid, b1⟩ := p1
  simp only [h1] at h ⊢
  by_cases hz : hcid == 0
  · simp only [hz, if_true] at h ⊢
    cases h2 : picoquic_frames_varlen_decode b1 with
    | none => simp [h2]
    | some p2 =>
    obtain ⟨alen, b2⟩ := p2
    simp only [h2] at h ⊢
    cases h3 : picoquic_frames_fixed_skip b2 alen with
    | none => simp [h3]
    | some b3 =>
    simp only [h3] at h ⊢
    cases h4 : picoquic_frames_uint16_decode b3 with
    | none => simp [h4]
    | some p4 =>
    obtain ⟨port, b4⟩ := p4
    simp only [h4] at h ⊢
    cases h5 : qinq_copy_address alen (b2.take alen) port with
    | none => simp [h5]
    | some a => simp [h5] at h
  · simp only [hz, Bool.false_eq_true, if_false] at h ⊢
    cases hfu : findUnlink (fun e => e.hcid == hcid) reg with
    | none => simp [picoqinq_find_reserve_header_by_id, hfu]
    | some p =>
      obtain ⟨f, rest⟩ := p
      simp [picoqinq_find_reserve_header_by_id, hfu] at h

/-- Witness for the amended C2: a failing decode (empty input) on a
concrete one-entry registry leaves the registry unchanged. -/
theorem claim_C2_failure_registry_untouched_witness :
    (picoqinq_decode_datagram_header [] [⟨1, Addr.v4 [1, 2, 3, 4] 9, [7]⟩]
        none none).2.2.2 = [⟨1, Addr.v4 [1, 2, 3, 4] 9, [7]⟩] :=
  claim_C2_failure_registry_untouched [] [⟨1, Addr.v4 [1, 2, 3, 4] 9, [7]⟩]
    none none (by decide)

/-- Witness for C10: a miss on a concrete one-entry registry leaves it
exactly unchanged, and an address-and-CID hit on the second entry of a
concrete two-entry registry promotes that entry to the front. -/
theorem claim_C10_find_preserves_entries_witness :
    ((picoqinq_find_reserve_header_by_id [⟨1, Addr.v4 [1, 2, 3, 4] 9, [7]⟩] 5).2 =
      [⟨1, Addr.v4 [1, 2, 3, 4] 9, [7]⟩]) ∧
    (∃ f t, picoqinq_find_reserve_header_id_by_address
        [⟨1, Addr.v4 [1, 2, 3, 4] 9, [7]⟩, ⟨2, Addr.v4 [5, 6, 7, 8] 10, [8]⟩]
        (Addr.v4 [5, 6, 7, 8] 10) [8] = (f.hcid, f :: t) ∧
      f.addr = Addr.v4 [5, 6, 7, 8] 10 ∧ f.cid = [8] ∧
      f ∈ [⟨1, Addr.v4 [1, 2, 3, 4] 9, [7]⟩, ⟨2, Addr.v4 [5, 6, 7, 8] 10, [8]⟩] ∧
      (f :: t).Perm
        [⟨1, Addr.v4 [1, 2, 3, 4] 9, [7]⟩, ⟨2, Addr.v4 [5, 6, 7, 8] 10, [8]⟩]) :=
  ⟨(claim_C10_find_preserves_entries [⟨1, Addr.v4 [1, 2, 3, 4] 9, [7]⟩] 5
      (Addr.v4 [] 0) []).2.2.1 (by decide),
    (claim_C10_find_preserves_entries
      [⟨1, Addr.v4 [1, 2, 3, 4] 9, [7]⟩, ⟨2, Addr.v4 [5, 6, 7, 8] 10, [8]⟩]
      0 (Addr.v4 [5, 6, 7, 8] 10) [8]).2.2.2.2.2.2.2
      ⟨2, Addr.v4 [5, 6, 7, 8] 10, [8]⟩ (by decide) (by decide) (by decide)⟩

end Qinq
